import Mathlib

/-!
Verification of the data-analysis repository (`data.py`, `analysis.py`).

The embedding models numeric values as `ℚ` (exact arithmetic for the
64-bit floats of the source), Python exceptions as `Option.none`, and
numpy's silent non-finite results of dividing by zero (`nan`/`inf`) as an
inner `Option.none` value, distinct from a raised exception.

A Python `for` loop that may raise is modelled by `optMapM`; Python-style
(possibly negative, wrap-around) sequence indexing by `pyIndex`; the
`header2col` dictionary by an association list with first-match lookup.
An empty `data` list models a 2-D numpy array of shape `(0, M)` (the shape
produced by slicing a nonempty table down to zero rows).
-/

/-- Sequential traversal of a list by a fallible function: the Python
`for` loop that appends to an accumulator and aborts at the first raised
exception. -/
def optMapM {α β : Type} (f : α → Option β) : List α → Option (List β)
  | [] => some []
  | x :: xs =>
    match f x, optMapM f xs with
    | some y, some ys => some (y :: ys)
    | _, _ => none

theorem optMapM_nil {α β : Type} (f : α → Option β) : optMapM f [] = some [] := rfl

theorem optMapM_length {α β : Type} (f : α → Option β) :
    ∀ {xs : List α} {ys : List β}, optMapM f xs = some ys → ys.length = xs.length := by
  intro xs
  induction xs with
  | nil => intro ys h; simp [optMapM] at h; simp [← h]
  | cons x xs ih =>
    intro ys h
    simp only [optMapM] at h
    cases hx : f x with
    | none => rw [hx] at h; simp at h
    | some y =>
      cases hxs : optMapM f xs with
      | none => rw [hx, hxs] at h; simp at h
      | some ys' =>
        rw [hx, hxs] at h
        simp at h
        subst h
        simp [ih hxs]

theorem optMapM_eq_some_iff {α β : Type} (f : α → Option β) :
    ∀ {xs : List α} {ys : List β},
      optMapM f xs = some ys ↔ List.Forall₂ (fun x y => f x = some y) xs ys := by
  intro xs
  induction xs with
  | nil =>
    intro ys
    constructor
    · intro h; simp [optMapM] at h; simp [← h]
    · intro h; cases h; rfl
  | cons x xs ih =>
    intro ys
    constructor
    · intro h
      simp only [optMapM] at h
      cases hx : f x with
      | none => rw [hx] at h; simp at h
      | some y =>
        cases hxs : optMapM f xs with
        | none => rw [hx, hxs] at h; simp at h
        | some ys' =>
          rw [hx, hxs] at h
          simp at h
          subst h
          exact List.Forall₂.cons hx (ih.mp hxs)
    · intro h
      cases h with
      | cons hy hrest =>
        simp only [optMapM, hy, ih.mpr hrest]

theorem optMapM_none_of_mem {α β : Type} (f : α → Option β) {xs : List α} {x : α}
    (hmem : x ∈ xs) (hx : f x = none) : optMapM f xs = none := by
  induction xs with
  | nil => cases hmem
  | cons a xs ih =>
    rcases List.mem_cons.mp hmem with h | h
    · subst h; simp only [optMapM, hx]
    · simp only [optMapM, ih h]
      cases f a <;> rfl

theorem optMapM_isSome {α β : Type} (f : α → Option β) {xs : List α}
    (h : ∀ x ∈ xs, (f x).isSome) : (optMapM f xs).isSome := by
  induction xs with
  | nil => simp [optMapM]
  | cons a xs ih =>
    have ha := h a (List.mem_cons_self a xs)
    have hrest := ih (fun x hx => h x (List.mem_cons_of_mem a hx))
    cases hfa : f a with
    | none => rw [hfa] at ha; simp at ha
    | some y =>
      cases hxs : optMapM f xs with
      | none => rw [hxs] at hrest; simp at hrest
      | some ys => simp only [optMapM, hfa, hxs, Option.isSome_some]

theorem optMapM_map_of_forall_some {α β : Type} (f : α → Option β) (g : α → β)
    {xs : List α} (h : ∀ x ∈ xs, f x = some (g x)) :
    optMapM f xs = some (xs.map g) := by
  induction xs with
  | nil => rfl
  | cons a xs ih =>
    have := ih (fun x hx => h x (List.mem_cons_of_mem a hx))
    simp only [optMapM, h a (List.mem_cons_self a xs), this, List.map_cons]

theorem filterMap_eq_of_forall2 {α β : Type} (f : α → Option β) :
    ∀ {xs : List α} {ys : List β},
      List.Forall₂ (fun x y => f x = some y) xs ys → xs.filterMap f = ys := by
  intro xs ys h
  induction h with
  | nil => rfl
  | cons hxy _ ih =>
    rename_i x y xs' ys'
    simp [List.filterMap_cons, hxy, ih]

/-- Python / numpy integer indexing into a sequence: nonnegative indices
address from the front, indices in `[-n, -1]` wrap around to the end, and
anything outside `[-n, n)` raises `IndexError` (modelled as `none`). -/
def pyIndex {α : Type} (l : List α) (i : ℤ) : Option α :=
  if 0 ≤ i then l.get? i.toNat
  else if 0 ≤ i + l.length then l.get? (i + l.length).toNat
  else none

theorem pyIndex_none {α : Type} (l : List α) (i : ℤ)
    (h : i < -(l.length : ℤ) ∨ (l.length : ℤ) ≤ i) : pyIndex l i = none := by
  rcases h with h | h
  · have h1 : ¬ 0 ≤ i := by omega
    have h2 : ¬ 0 ≤ i + l.length := by omega
    simp [pyIndex, h1, h2]
  · have h1 : 0 ≤ i := by
      have : (0 : ℤ) ≤ l.length := Int.ofNat_nonneg _
      omega
    have h2 : l.length ≤ i.toNat := by omega
    simp only [pyIndex, h1, if_true]
    exact List.get?_eq_none.mpr h2

theorem pyIndex_isSome {α : Type} (l : List α) (i : ℤ)
    (h1 : -(l.length : ℤ) ≤ i) (h2 : i < (l.length : ℤ)) : (pyIndex l i).isSome := by
  by_cases h : 0 ≤ i
  · have hlt : i.toNat < l.length := by omega
    simp only [pyIndex, h, if_true]
    rw [List.get?_eq_get hlt]
    rfl
  · have hge : 0 ≤ i + l.length := by omega
    have hlt : (i + l.length).toNat < l.length := by omega
    simp only [pyIndex, h, if_false, hge, if_true]
    rw [List.get?_eq_get hlt]
    rfl

theorem pyIndex_neg_eq {α : Type} (l : List α) (i : ℤ)
    (h1 : -(l.length : ℤ) ≤ i) (h2 : i < 0) :
    pyIndex l i = l.get? (i + l.length).toNat := by
  have hn : ¬ 0 ≤ i := by omega
  have hge : 0 ≤ i + l.length := by omega
  simp [pyIndex, hn, hge]

theorem pyIndex_mem {α : Type} {l : List α} {i : ℤ} {x : α}
    (h : pyIndex l i = some x) : x ∈ l := by
  unfold pyIndex at h
  split at h
  · exact List.get?_mem h
  · split at h
    · exact List.get?_mem h
    · cases h

/-- First-match lookup in an association list: the Python dictionary
`header2col` (keys unique once built, values overwritten on re-assignment
with the same first-occurrence index). -/
def dictLookup : List (String × Nat) → String → Option Nat
  | [], _ => none
  | (k, v) :: rest, s => if k = s then some v else dictLookup rest s

/-- Number of (distinct) keys in the association list: `len(dict)` in
Python. -/
def dictLen (l : List (String × Nat)) : Nat := (l.map Prod.fst).dedup.length

theorem dictLookup_map_self (l : List String) (f : String → Nat) (s : String) :
    dictLookup (l.map (fun h => (h, f h))) s = if s ∈ l then some (f s) else none := by
  induction l with
  | nil => rfl
  | cons a l ih =>
    simp only [List.map_cons, dictLookup, ih]
    by_cases has : a = s
    · subst has; simp
    · simp [has, Ne.symm has, List.mem_cons]

theorem dictLookup_mem {l : List (String × Nat)} {s : String} {v : Nat}
    (h : dictLookup l s = some v) : (s, v) ∈ l := by
  induction l with
  | nil => cases h
  | cons p rest ih =>
    obtain ⟨k, w⟩ := p
    simp only [dictLookup] at h
    by_cases hk : k = s
    · subst hk
      simp at h
      subst h
      exact List.mem_cons_self _ _
    · simp [hk] at h
      exact List.mem_cons_of_mem _ (ih h)

/-- The recognized type markers of the second CSV row (`data_type_list`
in `Data.read`). -/
def data_type_list : List String := ["numeric", "enum", "string", "date"]

/-- Strip one layer of the given characters from both ends of a string
(Python `str.strip(c)`). -/
def pyStripChar (c : Char) (s : List Char) : List Char :=
  ((s.dropWhile (fun x => x = c)).reverse.dropWhile (fun x => x = c)).reverse

/-- The header-field normalization of `Data.read`:
`col.strip(' ')` followed by `col.strip('\n')`. -/
def pyHeaderStrip (s : String) : String :=
  ⟨pyStripChar '\n' (pyStripChar ' ' s.data)⟩

/-- Column positions of the marker row whose field is exactly "numeric"
(the `index_row_2_list` accumulated by `Data.read`). -/
def numericIdxs (markerRow : List String) : List Nat :=
  (List.range markerRow.length).filter (fun a => decide (markerRow.get? a = some "numeric"))

/-- The `Data` object of `data.py`: retained (numeric) headers, the data
matrix (rows of 64-bit floats, modelled as `ℚ`), and the header-to-column
dictionary. The `filepath` field is display-only and omitted. -/
structure Data where
  headers : List String
  data : List (List ℚ)
  header2col : List (String × Nat)
deriving DecidableEq

/-- Model of `Data.read`: parse a tokenized CSV. `headerRow` and `markerRow` are
the raw fields of the first two lines; each later data row is given as raw
fields where `some q` is a field parseable as the float `q` and `none` a
field that `float(...)` rejects (`ParseError`). The result pairs the
constructed object with the `errorPrinted` flag (whether the
"no data types in second row" error was reported); `none` models a raised
exception (a short row, an unparseable retained field, or an empty marker
line, where `row[0]` itself raises `IndexError`). -/
def Data.read (headerRow markerRow : List String)
    (dataRows : List (List (Option ℚ))) : Option (Data × Bool) :=
  match markerRow.head? with
  | none => none
  | some first =>
    let header_list := headerRow.map pyHeaderStrip
    let index_row_2_list := if first ∈ data_type_list then numericIdxs markerRow else []
    match optMapM (fun row => optMapM (fun i => (row.get? i).bind id) index_row_2_list)
            dataRows,
          optMapM (fun i => header_list.get? i) index_row_2_list with
    | some data_list, some numeric_header_list =>
      some (⟨numeric_header_list, data_list,
             numeric_header_list.map (fun h => (h, numeric_header_list.indexOf h))⟩,
            decide (first ∉ data_type_list))
    | _, _ => none

def Data.get_num_samples (d : Data) : Nat := d.data.length

/-- Model of `get_header_indices`: for each requested name present in the
dictionary append its column index; unknown names are skipped. -/
def Data.get_header_indices (d : Data) (headers : List String) : List Nat :=
  headers.filterMap (fun h => dictLookup d.header2col h)

/-- The `headers` argument of `select_data`: either a bare string or a
list of names (`isinstance(headers, str)` check). -/
inductive HeadersArg where
  | single : String → HeadersArg
  | list : List String → HeadersArg

/-- Normalization performed at the top of `select_data`: a bare string
becomes a one-element list. -/
def HeadersArg.toList : HeadersArg → List String
  | .single s => [s]
  | .list l => l

/-- Model of `select_data`: resolve the requested headers to column indices and
return the sub-matrix at the cross product of `rows` (all rows when the
list is empty) and those columns. Row indices follow numpy fancy-indexing
semantics (`pyIndex`). -/
def Data.select_data (d : Data) (headers : HeadersArg) (rows : List ℤ) :
    Option (List (List ℚ)) :=
  let headinds := d.get_header_indices headers.toList
  if rows.isEmpty then
    optMapM (fun r => optMapM (fun j => r.get? j) headinds) d.data
  else
    match optMapM (fun i => pyIndex d.data i) rows with
    | none => none
    | some rs => optMapM (fun r => optMapM (fun j => r.get? j) headinds) rs

/-- Model of `head`: the cascade of row-count cases of `data.py`; when no branch
assigns `head_list` (zero samples) the final `np.array(head_list)` raises
`UnboundLocalError`, modelled as `none`. -/
def Data.head (d : Data) : Option (List (List ℚ)) :=
  let n := d.data.length
  if 0 < n ∧ n < 2 then
    match d.data.get? 0 with
    | some r1 => some [r1]
    | _ => none
  else if 1 < n ∧ n < 3 then
    match d.data.get? 0, d.data.get? 1 with
    | some r1, some r2 => some [r1, r2]
    | _, _ => none
  else if 2 < n ∧ n < 4 then
    match d.data.get? 0, d.data.get? 1, d.data.get? 2 with
    | some r1, some r2, some r3 => some [r1, r2, r3]
    | _, _, _ => none
  else if 3 < n ∧ n < 5 then
    match d.data.get? 0, d.data.get? 1, d.data.get? 2, d.data.get? 3 with
    | some r1, some r2, some r3, some r4 => some [r1, r2, r3, r4]
    | _, _, _, _ => none
  else if 5 ≤ n then
    match d.data.get? 0, d.data.get? 1, d.data.get? 2, d.data.get? 3, d.data.get? 4 with
    | some r1, some r2, some r3, some r4, some r5 => some [r1, r2, r3, r4, r5]
    | _, _, _, _, _ => none
  else none

/-- Model of `tail`: same cascade using negative (wrap-around) indices
`get_sample(-k)`. -/
def Data.tail (d : Data) : Option (List (List ℚ)) :=
  let n := d.data.length
  if 0 < n ∧ n < 2 then
    match pyIndex d.data (-1) with
    | some r1 => some [r1]
    | _ => none
  else if 1 < n ∧ n < 3 then
    match pyIndex d.data (-2), pyIndex d.data (-1) with
    | some r1, some r2 => some [r1, r2]
    | _, _ => none
  else if 2 < n ∧ n < 4 then
    match pyIndex d.data (-3), pyIndex d.data (-2), pyIndex d.data (-1) with
    | some r1, some r2, some r3 => some [r1, r2, r3]
    | _, _, _ => none
  else if 3 < n ∧ n < 5 then
    match pyIndex d.data (-4), pyIndex d.data (-3), pyIndex d.data (-2),
          pyIndex d.data (-1) with
    | some r1, some r2, some r3, some r4 => some [r1, r2, r3, r4]
    | _, _, _, _ => none
  else if 5 ≤ n then
    match pyIndex d.data (-5), pyIndex d.data (-4), pyIndex d.data (-3),
          pyIndex d.data (-2), pyIndex d.data (-1) with
    | some r1, some r2, some r3, some r4, some r5 => some [r1, r2, r3, r4, r5]
    | _, _, _, _, _ => none
  else none

/-- Model of `limit_samples`: keep only the contiguous row range
`[start_row, end_row)` (Python slice `data[start_row:end_row, :]`). -/
def Data.limit_samples (d : Data) (start_row end_row : Nat) : Data :=
  { d with data := (d.data.take end_row).drop start_row }

/-- Structural well-formedness of a constructed table: every dictionary
value is a valid column index and every row has one entry per header. -/
def Data.WF (d : Data) : Prop :=
  (∀ p ∈ d.header2col, p.2 < d.headers.length) ∧
    ∀ r ∈ d.data, r.length = d.headers.length

/-- Elementwise numpy true division of an array entry by an integer:
division by zero yields a non-finite value (`nan`/`inf`, modelled `none`)
with only a runtime warning — no exception is raised. -/
def npDiv (x : ℚ) (n : ℤ) : Option ℚ :=
  if n = 0 then none else some (x / (n : ℚ))

/-- Division where the numerator may already be non-finite
(`nan` propagates). -/
def npOptDiv (s : Option ℚ) (n : ℤ) : Option ℚ :=
  s.bind (fun q => npDiv q n)

/-- Addition where either operand may be non-finite (`nan` propagates). -/
def optAdd (a b : Option ℚ) : Option ℚ :=
  match a, b with
  | some x, some y => some (x + y)
  | _, _ => none

/-- Model of `np.sum(m, axis=0)` on an array of shape `(len m, ncols)`: columnwise
sums, the zero vector when there are no rows. -/
def npSumAxis0 (ncols : Nat) (m : List (List ℚ)) : List ℚ :=
  m.foldl (fun acc row => acc.zipWith (fun a b => a + b) row) (List.replicate ncols 0)

/-- Columnwise sums of a matrix whose entries may be non-finite. -/
def npOptSumAxis0 (ncols : Nat) (m : List (List (Option ℚ))) : List (Option ℚ) :=
  m.foldl (fun acc row => acc.zipWith optAdd row) (List.replicate ncols (some 0))

/-- The sum of column `j` of a matrix given as a list of rows. -/
def colSum (m : List (List ℚ)) (j : Nat) : ℚ :=
  (m.map (fun r => r.getD j 0)).sum

/-- Model of `Analysis.min`: columnwise minimum of the selected sub-matrix
(`np.min(..., axis=0)` raises `ValueError` on a zero-row selection). -/
def Analysis.min (d : Data) (headers : HeadersArg) (rows : List ℤ) :
    Option (List ℚ) :=
  match d.select_data headers rows with
  | none => none
  | some [] => none
  | some (r :: rs) =>
    some (rs.foldl (fun acc row => acc.zipWith (fun a b => Min.min a b) row) r)

/-- Model of `Analysis.max`: columnwise maximum of the selected sub-matrix. -/
def Analysis.max (d : Data) (headers : HeadersArg) (rows : List ℤ) :
    Option (List ℚ) :=
  match d.select_data headers rows with
  | none => none
  | some [] => none
  | some (r :: rs) =>
    some (rs.foldl (fun acc row => acc.zipWith (fun a b => Max.max a b) row) r)

/-- Model of `Analysis.range`: the pair `(mins, maxes)` obtained by two
independent calls to `Analysis.min` and `Analysis.max`. -/
def Analysis.range (d : Data) (headers : HeadersArg) (rows : List ℤ) :
    Option (List ℚ × List ℚ) :=
  match Analysis.min d headers rows, Analysis.max d headers rows with
  | some mins, some maxes => some (mins, maxes)
  | _, _ => none

/-- Model of `Analysis.mean`: columnwise sums of the selected sub-matrix divided
by `len(mean_data)`, the number of selected rows. -/
def Analysis.mean (d : Data) (headers : HeadersArg) (rows : List ℤ) :
    Option (List (Option ℚ)) :=
  match d.select_data headers rows with
  | none => none
  | some mean_data =>
    let num_rows := mean_data.length
    let sum_data := npSumAxis0 (d.get_header_indices headers.toList).length mean_data
    some (sum_data.map (fun s => npDiv s (num_rows : ℤ)))

/-- Model of `Analysis.var`: columnwise sums of squared deviations from the
column means, divided by `len(vars_data) - 1`. -/
def Analysis.var (d : Data) (headers : HeadersArg) (rows : List ℤ) :
    Option (List (Option ℚ)) :=
  match d.select_data headers rows with
  | none => none
  | some vars_data =>
    let num_rows := vars_data.length
    match Analysis.mean d headers rows with
    | none => none
    | some means =>
      let subtract_mean_squared := vars_data.map (fun row =>
        List.zipWith (fun x mu => mu.map (fun v => (x - v) ^ 2)) row means)
      let sum_data :=
        npOptSumAxis0 (d.get_header_indices headers.toList).length subtract_mean_squared
      some (sum_data.map (fun s => npOptDiv s ((num_rows : ℤ) - 1)))

/-- Model of `Analysis.scatter`: resolve one independent and one dependent
variable, each passed as a bare string, through `select_data`, and return
the plotted `(x, y)` arrays. -/
def Analysis.scatter (d : Data) (ind_var dep_var : String) :
    Option (List (List ℚ) × List (List ℚ)) :=
  match d.select_data (.single ind_var) [], d.select_data (.single dep_var) [] with
  | some x, some y => some (x, y)
  | _, _ => none

/-- The end-to-end CSV example of the specification: columns `a` and `c`
are numeric, the middle column is a string column. -/
def tbl3 : Data :=
  ⟨["a", "c"], [[1, 10], [2, 20], [3, 30]], [("a", 0), ("c", 1)]⟩

/-- A two-row, one-column table. -/
def tbl2 : Data := ⟨["a"], [[1], [2]], [("a", 0)]⟩

/-- A table whose data matrix has no rows. -/
def tblEmpty : Data := ⟨["a"], [], [("a", 0)]⟩

/-- A five-row, one-column table. -/
def tbl5 : Data := ⟨["a"], [[1], [2], [3], [4], [5]], [("a", 0)]⟩

instance (d : Data) : Decidable d.WF := by
  unfold Data.WF
  infer_instance

theorem select_data_length {d : Data} {h : HeadersArg} {rows : List ℤ}
    {m : List (List ℚ)} (hsel : d.select_data h rows = some m) :
    m.length = if rows.isEmpty then d.data.length else rows.length := by
  unfold Data.select_data at hsel
  by_cases hr : rows.isEmpty
  · rw [if_pos hr] at hsel ⊢
    exact optMapM_length _ hsel
  · rw [if_neg hr] at hsel ⊢
    cases hrs : optMapM (fun i => pyIndex d.data i) rows with
    | none => rw [hrs] at hsel; cases hsel
    | some rs =>
      rw [hrs] at hsel
      rw [optMapM_length _ hsel, optMapM_length _ hrs]

theorem forall2_exists_of_mem_right {α β : Type} {R : α → β → Prop} :
    ∀ {xs : List α} {ys : List β}, List.Forall₂ R xs ys → ∀ {y}, y ∈ ys →
      ∃ x ∈ xs, R x y := by
  intro xs ys h
  induction h with
  | nil => intro y hy; cases hy
  | cons hxy _ ih =>
    intro y hy
    rcases List.mem_cons.mp hy with h | h
    · subst h; exact ⟨_, List.mem_cons_self _ _, hxy⟩
    · obtain ⟨x, hx, hr⟩ := ih h
      exact ⟨x, List.mem_cons_of_mem _ hx, hr⟩

theorem select_data_row_mem {d : Data} {h : HeadersArg} {rows : List ℤ}
    {m : List (List ℚ)} (hsel : d.select_data h rows = some m) :
    ∀ r ∈ m, ∃ src, (rows.isEmpty → src ∈ d.data) ∧
      optMapM (fun j => src.get? j) (d.get_header_indices h.toList) = some r := by
  unfold Data.select_data at hsel
  by_cases hr : rows.isEmpty
  · rw [if_pos hr] at hsel
    intro r hrm
    have hf := (optMapM_eq_some_iff _).mp hsel
    obtain ⟨src, hsrc, hfr⟩ := forall2_exists_of_mem_right hf hrm
    exact ⟨src, fun _ => hsrc, hfr⟩
  · rw [if_neg hr] at hsel
    cases hrs : optMapM (fun i => pyIndex d.data i) rows with
    | none => rw [hrs] at hsel; cases hsel
    | some rs =>
      rw [hrs] at hsel
      intro r hrm
      have hf := (optMapM_eq_some_iff _).mp hsel
      obtain ⟨src, _, hfr⟩ := forall2_exists_of_mem_right hf hrm
      exact ⟨src, fun hre => absurd hre hr, hfr⟩

theorem select_data_row_length {d : Data} {h : HeadersArg} {rows : List ℤ}
    {m : List (List ℚ)} (hsel : d.select_data h rows = some m) :
    ∀ r ∈ m, r.length = (d.get_header_indices h.toList).length := by
  intro r hrm
  obtain ⟨src, _, hfr⟩ := select_data_row_mem hsel r hrm
  exact optMapM_length _ hfr

theorem get_header_indices_lt {d : Data} (hwf : d.WF) (hs : List String) :
    ∀ j ∈ d.get_header_indices hs, j < d.headers.length := by
  intro j hj
  obtain ⟨s, _, hlook⟩ := List.mem_filterMap.mp hj
  exact hwf.1 _ (dictLookup_mem hlook) 

theorem select_data_isSome {d : Data} (hwf : d.WF) (h : HeadersArg) {rows : List ℤ}
    (hrows : ∀ i ∈ rows, -(d.data.length : ℤ) ≤ i ∧ i < (d.data.length : ℤ)) :
    (d.select_data h rows).isSome := by
  unfold Data.select_data
  have hproj : ∀ src ∈ d.data,
      (optMapM (fun j => src.get? j) (d.get_header_indices h.toList)).isSome := by
    intro src hsrc
    apply optMapM_isSome
    intro j hj
    have hlt : j < src.length := by
      rw [hwf.2 src hsrc]
      exact get_header_indices_lt hwf _ j hj
    rw [List.get?_eq_get hlt]
    rfl
  by_cases hr : rows.isEmpty
  · rw [if_pos hr]
    exact optMapM_isSome _ hproj
  · rw [if_neg hr]
    have hrs : (optMapM (fun i => pyIndex d.data i) rows).isSome := by
      apply optMapM_isSome
      intro i hi
      exact pyIndex_isSome _ _ (hrows i hi).1 (hrows i hi).2
    cases hrsv : optMapM (fun i => pyIndex d.data i) rows with
    | none => rw [hrsv] at hrs; cases hrs
    | some rs =>
      apply optMapM_isSome
      intro src hsrc
      have hf := (optMapM_eq_some_iff _).mp hrsv
      obtain ⟨i, _, hpy⟩ := forall2_exists_of_mem_right hf hsrc
      exact hproj src (pyIndex_mem hpy)

theorem colSum_nil (j : Nat) : colSum [] j = 0 := rfl

theorem colSum_cons (row : List ℚ) (rest : List (List ℚ)) (j : Nat) :
    colSum (row :: rest) j = row.getD j 0 + colSum rest j := by
  simp [colSum]

theorem sum_foldl_get? :
    ∀ (m : List (List ℚ)) (acc : List ℚ) (j : Nat), j < acc.length →
      (∀ r ∈ m, j < r.length) →
      (m.foldl (fun a row => a.zipWith (fun x y => x + y) row) acc).get? j
        = some (acc.getD j 0 + colSum m j) := by
  intro m
  induction m with
  | nil =>
    intro acc j hj _
    simp only [List.foldl_nil, colSum_nil, add_zero]
    rw [List.get?_eq_get hj, List.getD_eq_get _ _ hj]
  | cons row rest ih =>
    intro acc j hj hrows
    have hjr : j < row.length := hrows row (List.mem_cons_self _ _)
    have hjz : j < (acc.zipWith (fun x y => x + y) row).length := by
      rw [List.length_zipWith]
      omega
    rw [List.foldl_cons,
      ih (acc.zipWith (fun x y => x + y) row) j hjz
        (fun r hr => hrows r (List.mem_cons_of_mem _ hr))]
    have hzip : (acc.zipWith (fun x y => x + y) row).getD j 0
        = acc.getD j 0 + row.getD j 0 := by
      have h1 := List.get?_zipWith' (fun x y => x + y) acc row j
      rw [List.get?_eq_get hj, List.get?_eq_get hjr] at h1
      have h2 : (acc.zipWith (fun x y => x + y) row).getD j 0
          = acc.get ⟨j, hj⟩ + row.get ⟨j, hjr⟩ := by
        rw [List.getD_eq_get _ _ hjz]
        have := List.get?_eq_get hjz
        rw [h1] at this
        simpa using this.symm
      rw [h2, List.getD_eq_get _ _ hj, List.getD_eq_get _ _ hjr]
    rw [hzip, colSum_cons]
    ring_nf

theorem foldl_zipWith_length {γ δ : Type} (f : γ → δ → γ) :
    ∀ (m : List (List δ)) (acc : List γ) (n : Nat), acc.length = n →
      (∀ r ∈ m, n ≤ r.length) →
      (m.foldl (fun a row => a.zipWith f row) acc).length = n := by
  intro m
  induction m with
  | nil => intro acc n h _; simpa using h
  | cons row rest ih =>
    intro acc n h hrows
    rw [List.foldl_cons]
    apply ih
    · rw [List.length_zipWith, h]
      have := hrows row (List.mem_cons_self _ _)
      omega
    · exact fun r hr => hrows r (List.mem_cons_of_mem _ hr)

theorem npSumAxis0_eq (ncols : Nat) (m : List (List ℚ))
    (hrows : ∀ r ∈ m, r.length = ncols) :
    npSumAxis0 ncols m = (List.range ncols).map (fun j => colSum m j) := by
  have hlen : (npSumAxis0 ncols m).length = ncols := by
    apply foldl_zipWith_length _ _ _ _ (by simp)
    intro r hr
    rw [hrows r hr]
  apply List.ext_get?
  intro j
  by_cases hj : j < ncols
  · rw [show npSumAxis0 ncols m
        = m.foldl (fun a row => a.zipWith (fun x y => x + y) row)
            (List.replicate ncols 0) from rfl,
      sum_foldl_get? m (List.replicate ncols 0) j (by simpa using hj)
      (fun r hr => by rw [hrows r hr]; exact hj)]
    rw [List.get?_eq_get (by simpa using hj : j < ((List.range ncols).map
      (fun j => colSum m j)).length)]
    simp [List.getD_eq_getElem _ _ (by simpa using hj : j < (List.replicate ncols (0:ℚ)).length)]
  · rw [List.get?_eq_none.mpr (by omega : (npSumAxis0 ncols m).length ≤ j),
      List.get?_eq_none.mpr (by simpa using hj)]

theorem zipWith_optAdd_map_some (acc r : List ℚ) :
    List.zipWith optAdd (acc.map some) (r.map some)
      = (List.zipWith (fun x y => x + y) acc r).map some := by
  rw [List.zipWith_map]
  rw [List.map_zipWith]
  rfl

theorem foldl_optAdd_bridge :
    ∀ (ms : List (List ℚ)) (acc : List ℚ),
      (ms.map (fun r => r.map some)).foldl (fun a row => a.zipWith optAdd row)
          (acc.map some)
        = (ms.foldl (fun a row => a.zipWith (fun x y => x + y) row) acc).map some := by
  intro ms
  induction ms with
  | nil => intro acc; simp
  | cons row rest ih =>
    intro acc
    simp only [List.map_cons, List.foldl_cons, zipWith_optAdd_map_some]
    exact ih _

theorem npOptSumAxis0_map_some (ncols : Nat) (ms : List (List ℚ)) :
    npOptSumAxis0 ncols (ms.map (fun r => r.map some))
      = (npSumAxis0 ncols ms).map some := by
  unfold npOptSumAxis0 npSumAxis0
  rw [show List.replicate ncols (some (0:ℚ)) = (List.replicate ncols (0:ℚ)).map some by
    simp [List.map_replicate]]
  exact foldl_optAdd_bridge ms _

/-- The defining formula of `Analysis.mean` written columnwise: the sum
of column `j` of the selected sub-matrix divided by the number of its
rows (a non-finite `none` when that number is zero). -/
theorem mean_formula {d : Data} {h : HeadersArg} {rows : List ℤ}
    {m : List (List ℚ)} (hsel : d.select_data h rows = some m) :
    Analysis.mean d h rows
      = some ((List.range (d.get_header_indices h.toList).length).map
          (fun j => npDiv (colSum m j) (m.length : ℤ))) := by
  unfold Analysis.mean
  rw [hsel]
  dsimp only
  rw [npSumAxis0_eq _ _ (select_data_row_length hsel), List.map_map]
  rfl

/-- C1: for every table, `mean(h, rows)` returns one value per requested
header, equal to the columnwise sum of `select(h, rows)` divided by the
number of selected rows — `len(rows)` when `rows` is non-empty, the full
sample count when `rows` is empty — never by the column count. -/
theorem mean_divides_by_selected_row_count (d : Data) (hs : List String)
    (rows : List ℤ) (m : List (List ℚ))
    (hsel : d.select_data (.list hs) rows = some m) :
    (rows ≠ [] →
      m.length = rows.length ∧
      Analysis.mean d (.list hs) rows
        = some ((List.range (d.get_header_indices hs).length).map
            (fun j => some (colSum m j / (rows.length : ℚ)))))
    ∧ (rows = [] →
      m.length = d.data.length ∧
      Analysis.mean d (.list hs) rows
        = some ((List.range (d.get_header_indices hs).length).map
            (fun j => npDiv (colSum m j) (d.data.length : ℤ)))) := by
  have hlen := select_data_length hsel
  constructor
  · intro hne
    have hre : rows.isEmpty = false := by
      cases rows with
      | nil => exact absurd rfl hne
      | cons a l => rfl
    rw [hre, if_neg (by simp)] at hlen
    refine ⟨hlen, ?_⟩
    rw [mean_formula hsel, hlen]
    have hfun : (fun j => npDiv (colSum m j) (rows.length : ℤ))
        = fun j => some (colSum m j / (rows.length : ℚ)) := by
      funext j
      have hne' : (rows.length : ℤ) ≠ 0 := by
        have : rows ≠ [] := hne
        have : rows.length ≠ 0 := fun hc => hne (List.length_eq_zero.mp hc)
        omega
      unfold npDiv
      rw [if_neg hne']
      norm_num
    rw [hfun]
    rfl
  · intro hempty
    subst hempty
    simp only [List.isEmpty_nil, if_true] at hlen
    refine ⟨hlen, ?_⟩
    rw [mean_formula hsel, hlen]
    rfl

/-- Witness for C1 at the specification's end-to-end example: the mean of
columns `a`, `c` over rows 0 and 2 is `[2, 20]`. -/
theorem mean_divides_by_selected_row_count_witness :
    Analysis.mean tbl3 (.list ["a", "c"]) [0, 2] = some [some 2, some 20] := by
  have h := (mean_divides_by_selected_row_count tbl3 ["a", "c"] [0, 2]
      [[1, 10], [3, 30]] (by decide)).1 (by decide)
  rw [h.2]
  simp +decide [tbl3, Data.get_header_indices, dictLookup, colSum, List.range_succ]
  norm_num

@[simp] theorem HeadersArg.toList_list (l : List String) :
    (HeadersArg.list l).toList = l := rfl

@[simp] theorem HeadersArg.toList_single (s : String) :
    (HeadersArg.single s).toList = [s] := rfl

theorem zipWith_devsq (row μl : List ℚ) :
    List.zipWith (fun x mu => mu.map (fun v => (x - v) ^ 2)) row (μl.map some)
      = (List.zipWith (fun x v => (x - v) ^ 2) row μl).map some := by
  rw [List.zipWith_map_right, List.map_zipWith]
  simp

theorem colSum_dev (m : List (List ℚ)) (ncols : Nat)
    (hrows : ∀ r ∈ m, r.length = ncols) (μ : Nat → ℚ) (j : Nat) (hj : j < ncols) :
    colSum (m.map (fun row =>
        List.zipWith (fun x v => (x - v) ^ 2) row ((List.range ncols).map μ))) j
      = (m.map (fun r => (r.getD j 0 - μ j) ^ 2)).sum := by
  unfold colSum
  rw [List.map_map]
  congr 1
  apply List.map_congr_left
  intro r hr
  have hjr : j < r.length := by rw [hrows r hr]; exact hj
  have hjz : j < (List.zipWith (fun x v => (x - v) ^ 2) r
      ((List.range ncols).map μ)).length := by
    rw [List.length_zipWith, List.length_map, List.length_range]
    omega
  have hjm : j < ((List.range ncols).map μ).length := by
    rw [List.length_map, List.length_range]; exact hj
  simp only [Function.comp]
  rw [List.getD_eq_getElem _ _ hjz, List.getElem_zipWith,
    List.getElem_map, List.getElem_range, List.getD_eq_getElem _ _ hjr]

/-- C2: for every table, `var(h, rows)` with more than one selected row
returns per-column sample variance with the Bessel-corrected `n − 1`
denominator: the columnwise sum of squared deviations of the selected
sub-matrix from the column mean, divided by `len(rows) − 1`. -/
theorem var_bessel_corrected (d : Data) (hs : List String) (rows : List ℤ)
    (m : List (List ℚ)) (hsel : d.select_data (.list hs) rows = some m)
    (h2 : 1 < rows.length) :
    Analysis.var d (.list hs) rows
      = some ((List.range (d.get_header_indices hs).length).map
          (fun j => some ((m.map (fun r =>
              (r.getD j 0 - colSum m j / (rows.length : ℚ)) ^ 2)).sum
            / ((rows.length : ℚ) - 1)))) := by
  have hne : rows ≠ [] := by
    intro hc
    subst hc
    simp at h2
  have hre : rows.isEmpty = false := by
    cases rows with
    | nil => exact absurd rfl hne
    | cons a l => rfl
  have hlen : m.length = rows.length := by
    have h := select_data_length hsel
    rw [hre, if_neg (by simp)] at h
    exact h
  have hrows : ∀ r ∈ m, r.length = (d.get_header_indices hs).length := by
    have h := select_data_row_length hsel
    simpa using h
  have hmean := mean_formula hsel
  have hnd : (fun j => npDiv (colSum m j) (m.length : ℤ))
      = fun j => some (colSum m j / (rows.length : ℚ)) := by
    funext j
    have hne' : (m.length : ℤ) ≠ 0 := by omega
    unfold npDiv
    rw [if_neg hne', hlen]
    norm_num
  rw [hnd] at hmean
  unfold Analysis.var
  rw [hsel, hmean]
  dsimp only
  simp only [HeadersArg.toList_list]
  rw [show (List.range (d.get_header_indices hs).length).map
        (fun j => some (colSum m j / (rows.length : ℚ)))
      = ((List.range (d.get_header_indices hs).length).map
          (fun j => colSum m j / (rows.length : ℚ))).map some by
    rw [List.map_map]; rfl]
  have hzip : (fun row => List.zipWith (fun x mu => mu.map (fun v => (x - v) ^ 2)) row
      (((List.range (d.get_header_indices hs).length).map
        (fun j => colSum m j / (rows.length : ℚ))).map some))
      = fun row => (List.zipWith (fun x v => (x - v) ^ 2) row
        ((List.range (d.get_header_indices hs).length).map
          (fun j => colSum m j / (rows.length : ℚ)))).map some := by
    funext row
    exact zipWith_devsq row _
  rw [hzip]
  rw [show m.map (fun row => (List.zipWith (fun x v => (x - v) ^ 2) row
        ((List.range (d.get_header_indices hs).length).map
          (fun j => colSum m j / (rows.length : ℚ)))).map some)
      = (m.map (fun row => List.zipWith (fun x v => (x - v) ^ 2) row
        ((List.range (d.get_header_indices hs).length).map
          (fun j => colSum m j / (rows.length : ℚ))))).map
            (fun r => r.map some) by
    rw [List.map_map]
    rfl]
  rw [npOptSumAxis0_map_some]
  have hdevrows : ∀ r ∈ m.map (fun row => List.zipWith (fun x v => (x - v) ^ 2) row
      ((List.range (d.get_header_indices hs).length).map
        (fun j => colSum m j / (rows.length : ℚ)))),
      r.length = (d.get_header_indices hs).length := by
    intro r hr
    obtain ⟨row, hrow, heq⟩ := List.mem_map.mp hr
    subst heq
    rw [List.length_zipWith, List.length_map, List.length_range, hrows row hrow]
    omega
  rw [npSumAxis0_eq _ _ hdevrows]
  rw [List.map_map, List.map_map]
  congr 1
  apply List.map_congr_left
  intro j hj
  have hjlt : j < (d.get_header_indices hs).length := List.mem_range.mp hj
  simp only [Function.comp]
  rw [colSum_dev m _ hrows _ j hjlt]
  have hden : ((m.length : ℤ) - 1) ≠ 0 := by omega
  unfold npOptDiv npDiv
  simp only [Option.bind_some, if_neg hden]
  rw [hlen]
  push_cast
  rfl

/-- Witness for C2 at the specification's end-to-end example: the sample
variance of columns `a`, `c` over all three rows is `[1, 100]`. -/
theorem var_bessel_corrected_witness :
    Analysis.var tbl3 (.list ["a", "c"]) [0, 1, 2] = some [some 1, some 100] := by
  have h := var_bessel_corrected tbl3 ["a", "c"] [0, 1, 2]
      [[1, 10], [2, 20], [3, 30]] (by decide) (by decide)
  rw [h]
  simp +decide [tbl3, Data.get_header_indices, dictLookup, colSum, List.range_succ]
  norm_num

/-- C3 (the claim states the intended policy; the code violates it): on
the zero-sample table produced by `limit_samples 2 2`, `mean` over all
rows returns a value — one non-finite `nan` per column, from
`np.divide`'s silent division of the zero column-sums by zero — rather
than failing; `var` over a single selected row likewise returns `nan`
values instead of failing. -/
theorem mean_var_zero_rows_silent_nan :
    Analysis.mean (tbl3.limit_samples 2 2) (.list ["a", "c"]) [] = some [none, none]
    ∧ Analysis.var tbl3 (.list ["a", "c"]) [0] = some [none, none] := by
  constructor
  · decide
  · simp +decide [Analysis.var, Analysis.mean, tbl3, Data.select_data,
      Data.get_header_indices, dictLookup, optMapM, pyIndex, npSumAxis0,
      npOptSumAxis0, npDiv, npOptDiv, optAdd, List.range_succ]

/-- C4 counterexample: in the marker row `["numeric", "bogus"]` the
second field is outside the recognized set, yet `read` reports no error
(the claim asserts any invalid field triggers a reported error) and
simply retains column 0. -/
theorem read_invalid_later_field_unreported :
    Data.read ["a", "b"] ["numeric", "bogus"] [[some 1, some 2]]
      = some (⟨["a"], [[1]], [("a", 0)]⟩, false) := by
  decide

/-- C4 (amended): only the first field of the type-marker row is
validated. The error is reported exactly when the first field is
unrecognized, in which case parsing still proceeds with no retained
columns (so an entirely invalid marker row retains none); when the first
field is recognized no error is reported — whatever the later fields —
and exactly the positions whose marker equals "numeric" are retained as
headers and data columns. -/
theorem read_marker_first_field_only (hr mr : List String)
    (dr : List (List (Option ℚ))) (first : String) (hf : mr.head? = some first) :
    (first ∉ data_type_list →
      Data.read hr mr dr = some (⟨[], dr.map (fun _ => []), []⟩, true))
    ∧ (first ∈ data_type_list → ∀ d e, Data.read hr mr dr = some (d, e) →
      e = false
      ∧ d.headers = (numericIdxs mr).filterMap
          (fun i => (hr.map pyHeaderStrip).get? i)
      ∧ List.Forall₂ (fun rin rout => rout = (numericIdxs mr).filterMap
          (fun i => (rin.get? i).bind id)) dr d.data) := by
  constructor
  · intro hnot
    have h1 : optMapM (fun row => optMapM (fun i => (row.get? i).bind id)
        ([] : List Nat)) dr = some (dr.map (fun _ => [])) :=
      optMapM_map_of_forall_some _ _ (fun row _ => rfl)
    unfold Data.read
    rw [hf]
    dsimp only
    rw [if_neg hnot, h1, optMapM_nil]
    simp [hnot]
  · intro hin d e hread
    unfold Data.read at hread
    rw [hf] at hread
    dsimp only at hread
    rw [if_pos hin] at hread
    cases hdl : optMapM (fun row => optMapM (fun i => (row.get? i).bind id)
        (numericIdxs mr)) dr with
    | none => rw [hdl] at hread; cases hread
    | some data_list =>
      cases hnh : optMapM (fun i => (hr.map pyHeaderStrip).get? i)
          (numericIdxs mr) with
      | none => rw [hdl, hnh] at hread; cases hread
      | some nh =>
        rw [hdl, hnh] at hread
        have hde := Option.some.inj hread
        have hd : d = ⟨nh, data_list,
            nh.map (fun h => (h, nh.indexOf h))⟩ := (congrArg Prod.fst hde).symm
        have he : e = decide (first ∉ data_type_list) :=
          (congrArg Prod.snd hde).symm
        refine ⟨?_, ?_, ?_⟩
        · rw [he]
          simp [hin]
        · rw [hd]
          exact (filterMap_eq_of_forall2 _ ((optMapM_eq_some_iff _).mp hnh)).symm
        · rw [hd]
          apply List.Forall₂.imp _ ((optMapM_eq_some_iff _).mp hdl)
          intro rin rout hrow
          exact (filterMap_eq_of_forall2 _ ((optMapM_eq_some_iff _).mp hrow)).symm

/-- Witness for C4 (amended) at a fully invalid marker row: the error is
reported, parsing proceeds, and no columns are retained. -/
theorem read_marker_first_field_only_witness :
    Data.read ["a", "b"] ["bogus", "nah"] [[some 1, some 2]]
      = some (⟨[], [[]], []⟩, true) :=
  (read_marker_first_field_only ["a", "b"] ["bogus", "nah"] [[some 1, some 2]]
    "bogus" rfl).1 (by decide)

theorem read_header2col {hr mr : List String} {dr : List (List (Option ℚ))}
    {d : Data} {e : Bool} (hread : Data.read hr mr dr = some (d, e)) :
    d.header2col = d.headers.map (fun h => (h, d.headers.indexOf h)) := by
  unfold Data.read at hread
  cases hmr : mr.head? with
  | none => rw [hmr] at hread; cases hread
  | some first =>
    rw [hmr] at hread
    dsimp only at hread
    cases hdl : optMapM (fun row => optMapM (fun i => (row.get? i).bind id)
        (if first ∈ data_type_list then numericIdxs mr else [])) dr with
    | none => rw [hdl] at hread; cases hread
    | some data_list =>
      cases hnh : optMapM (fun i => (hr.map pyHeaderStrip).get? i)
          (if first ∈ data_type_list then numericIdxs mr else []) with
      | none => rw [hdl, hnh] at hread; cases hread
      | some nh =>
        rw [hdl, hnh] at hread
        have hde := Option.some.inj hread
        have hd : d = ⟨nh, data_list, nh.map (fun h => (h, nh.indexOf h))⟩ :=
          (congrArg Prod.fst hde).symm
        rw [hd]

/-- C7: for every table constructed by `read` from a valid CSV (one whose
retained headers are pairwise distinct), the dictionary has exactly one
entry per header and maps the `i`-th header to index `i`. -/
theorem header_to_index_consistent (hr mr : List String)
    (dr : List (List (Option ℚ))) (d : Data) (e : Bool)
    (hread : Data.read hr mr dr = some (d, e)) (hnodup : d.headers.Nodup) :
    dictLen d.header2col = d.headers.length
    ∧ ∀ i (hi : i < d.headers.length),
        dictLookup d.header2col (d.headers.get ⟨i, hi⟩) = some i := by
  have hdict := read_header2col hread
  constructor
  · rw [hdict]
    unfold dictLen
    rw [List.map_map]
    have hcomp : (Prod.fst ∘ fun h => (h, d.headers.indexOf h))
        = fun h : String => h := rfl
    rw [hcomp, show List.map (fun h : String => h) d.headers = d.headers from
      List.map_id d.headers, List.dedup_eq_self.mpr hnodup]
  · intro i hi
    rw [hdict, dictLookup_map_self]
    rw [if_pos (List.get_mem _ _ _)]
    have := List.indexOf_getElem hnodup i hi
    simp only [List.get_eq_getElem]
    rw [this]

/-- Witness for C7: reading the specification's end-to-end CSV example
yields a two-entry dictionary mapping `a` to 0 and `c` to 1. -/
theorem header_to_index_consistent_witness :
    dictLen (Data.mk ["a", "c"] [[1, 10], [2, 20], [3, 30]]
        [("a", 0), ("c", 1)]).header2col = 2
    ∧ ∀ i (hi : i < (Data.mk ["a", "c"] [[1, 10], [2, 20], [3, 30]]
        [("a", 0), ("c", 1)]).headers.length),
        dictLookup [("a", 0), ("c", 1)]
          ((Data.mk ["a", "c"] [[1, 10], [2, 20], [3, 30]]
            [("a", 0), ("c", 1)]).headers.get ⟨i, hi⟩) = some i :=
  header_to_index_consistent ["a", "b", "c"] ["numeric", "string", "numeric"]
    [[some 1, none, some 10], [some 2, none, some 20], [some 3, none, some 30]]
    (Data.mk ["a", "c"] [[1, 10], [2, 20], [3, 30]] [("a", 0), ("c", 1)])
    false (by decide) (by decide)

theorem filterMap_filter_isSome {α β : Type} (f : α → Option β) (l : List α) :
    (l.filter (fun a => (f a).isSome)).filterMap f = l.filterMap f := by
  induction l with
  | nil => rfl
  | cons a l ih =>
    cases hfa : f a with
    | none =>
      rw [List.filter_cons, if_neg (by simp [hfa]), List.filterMap_cons, hfa, ih]
    | some b =>
      rw [List.filter_cons, if_pos (by simp [hfa]), List.filterMap_cons, hfa,
        List.filterMap_cons, hfa, ih]

theorem length_filterMap_eq_filter {α β : Type} (f : α → Option β) (l : List α) :
    (l.filterMap f).length = (l.filter (fun a => (f a).isSome)).length := by
  induction l with
  | nil => rfl
  | cons a l ih =>
    cases hfa : f a with
    | none =>
      rw [List.filterMap_cons, hfa, List.filter_cons, if_neg (by simp [hfa]), ih]
    | some b =>
      rw [List.filterMap_cons, hfa, List.filter_cons, if_pos (by simp [hfa]),
        List.length_cons, List.length_cons, ih]

/-- C5: a requested header name absent from the dictionary is silently
dropped: selecting with any request list equals selecting with the
unknown names removed, each returned row has one entry per known
requested name (in request order), and — on a well-formed table with
in-range rows — no error is raised. -/
theorem select_unknown_headers_dropped (d : Data) (hs : List String)
    (rows : List ℤ) :
    d.select_data (.list hs) rows
      = d.select_data (.list (hs.filter
          (fun h => (dictLookup d.header2col h).isSome))) rows
    ∧ (∀ m, d.select_data (.list hs) rows = some m →
        ∀ r ∈ m, r.length = (hs.filter
          (fun h => (dictLookup d.header2col h).isSome)).length)
    ∧ (d.WF → (∀ i ∈ rows, -(d.data.length : ℤ) ≤ i ∧ i < (d.data.length : ℤ)) →
        (d.select_data (.list hs) rows).isSome) := by
  have hinds : d.get_header_indices ((HeadersArg.list hs).toList)
      = d.get_header_indices ((HeadersArg.list (hs.filter
            (fun h => (dictLookup d.header2col h).isSome))).toList) := by
    simp only [HeadersArg.toList_list]
    unfold Data.get_header_indices
    exact (filterMap_filter_isSome _ hs).symm
  refine ⟨?_, ?_, ?_⟩
  · unfold Data.select_data
    rw [hinds]
  · intro m hm r hr
    rw [select_data_row_length hm r hr]
    simp only [HeadersArg.toList_list]
    unfold Data.get_header_indices
    rw [length_filterMap_eq_filter]
  · intro hwf hrows
    exact select_data_isSome hwf _ hrows

/-- Witness for C5: on the example table, requesting `["a", "zz", "c"]`
with the unknown name `zz` behaves exactly like requesting the known
names, and succeeds. -/
theorem select_unknown_headers_dropped_witness :
    Data.select_data tbl3 (.list ["a", "zz", "c"]) []
      = Data.select_data tbl3 (.list (["a", "zz", "c"].filter
          (fun h => (dictLookup tbl3.header2col h).isSome))) []
    ∧ (Data.select_data tbl3 (.list ["a", "zz", "c"]) []).isSome :=
  ⟨(select_unknown_headers_dropped tbl3 ["a", "zz", "c"] []).1,
   (select_unknown_headers_dropped tbl3 ["a", "zz", "c"] []).2.2
     (by decide) (by decide)⟩

/-- C6 counterexample: on a two-row table the negative row index `-1`
does not fail — fancy indexing wraps it around and returns the last
row. -/
theorem select_negative_index_wraps :
    Data.select_data tbl2 (.list ["a"]) [-1] = some [[2]] := by
  decide

/-- C6 (amended): a requested row index `≥ N` or `< -N` fails with an
`IndexError`-kind condition (no value is returned); a negative index in
`[-N, -1]` is instead accepted and wraps around to row `N + i`, and a
request whose indices all lie in `[-N, N)` succeeds on a well-formed
table. -/
theorem select_row_index_range_check (d : Data) (h : HeadersArg)
    (rows : List ℤ) :
    ((∃ i ∈ rows, i < -(d.data.length : ℤ) ∨ (d.data.length : ℤ) ≤ i) →
      d.select_data h rows = none)
    ∧ ((∀ i ∈ rows, -(d.data.length : ℤ) ≤ i ∧ i < (d.data.length : ℤ)) →
        d.WF → (d.select_data h rows).isSome)
    ∧ (∀ i : ℤ, -(d.data.length : ℤ) ≤ i → i < 0 →
        pyIndex d.data i = d.data.get? (i + d.data.length).toNat) := by
  refine ⟨?_, ?_, ?_⟩
  · rintro ⟨i, hmem, hbad⟩
    have hnone : pyIndex d.data i = none := pyIndex_none _ _ hbad
    have hre : rows.isEmpty = false := by
      cases rows with
      | nil => cases hmem
      | cons a l => rfl
    unfold Data.select_data
    rw [hre, if_neg (by simp)]
    rw [optMapM_none_of_mem _ hmem hnone]
  · intro hrows hwf
    exact select_data_isSome hwf _ hrows
  · intro i h1 h2
    exact pyIndex_neg_eq _ _ h1 h2

/-- Witness for C6 (amended): on the two-row table, index 5 fails, the
in-range request `[0, 1]` succeeds, and `-1` resolves to row `2 - 1`. -/
theorem select_row_index_range_check_witness :
    Data.select_data tbl2 (.list ["a"]) [5] = none
    ∧ (Data.select_data tbl2 (.list ["a"]) [0, 1]).isSome
    ∧ pyIndex tbl2.data (-1) = tbl2.data.get? ((-1 : ℤ) + tbl2.data.length).toNat :=
  ⟨(select_row_index_range_check tbl2 (.list ["a"]) [5]).1
      ⟨5, by decide, by decide⟩,
   (select_row_index_range_check tbl2 (.list ["a"]) [0, 1]).2.1
      (by decide) (by decide),
   (select_row_index_range_check tbl2 (.list ["a"]) []).2.2 (-1)
      (by decide) (by decide)⟩

/-- A six-row, one-column table. -/
def tbl6 : Data := ⟨["a"], [[1], [2], [3], [4], [5], [6]], [("a", 0)]⟩

theorem get?_drop_eq {α : Type} (l : List α) (i j : Nat) :
    (l.drop i).get? j = l.get? (i + j) := by
  simp [List.get?_eq_getElem?, List.getElem?_drop]

/-- On any table with at least 5 rows, `tail` returns exactly the last
five rows (the suffix dropping the first `n - 5`). -/
theorem tail_ge_five (d : Data) (hge : 5 ≤ d.data.length) :
    Data.tail d = some (d.data.drop (d.data.length - 5)) := by
  have hdlen : (d.data.drop (d.data.length - 5)).length = 5 := by
    rw [List.length_drop]
    omega
  obtain ⟨x1, x2, x3, x4, x5, hdrop⟩ : ∃ x1 x2 x3 x4 x5,
      d.data.drop (d.data.length - 5) = [x1, x2, x3, x4, x5] := by
    rcases hd : d.data.drop (d.data.length - 5) with
      _ | ⟨x1, _ | ⟨x2, _ | ⟨x3, _ | ⟨x4, _ | ⟨x5, r⟩⟩⟩⟩⟩
    all_goals rw [hd] at hdlen
    · simp at hdlen
    · simp at hdlen
    · simp at hdlen
    · simp at hdlen
    · simp at hdlen
    · simp at hdlen
      subst hdlen
      exact ⟨x1, x2, x3, x4, x5, rfl⟩
  have hp : ∀ k : ℤ, -5 ≤ k → k < 0 →
      pyIndex d.data k = (d.data.drop (d.data.length - 5)).get? (k + 5).toNat := by
    intro k h1 h2
    rw [pyIndex_neg_eq _ _ (by omega) h2, get?_drop_eq]
    congr 1
    omega
  have e1 : pyIndex d.data (-5) = some x1 := by
    rw [hp (-5) (by omega) (by omega), hdrop]
    rfl
  have e2 : pyIndex d.data (-4) = some x2 := by
    rw [hp (-4) (by omega) (by omega), hdrop]
    rfl
  have e3 : pyIndex d.data (-3) = some x3 := by
    rw [hp (-3) (by omega) (by omega), hdrop]
    rfl
  have e4 : pyIndex d.data (-2) = some x4 := by
    rw [hp (-2) (by omega) (by omega), hdrop]
    rfl
  have e5 : pyIndex d.data (-1) = some x5 := by
    rw [hp (-1) (by omega) (by omega), hdrop]
    rfl
  unfold Data.tail
  dsimp only
  rw [if_neg (by omega), if_neg (by omega), if_neg (by omega),
    if_neg (by omega), if_pos (by omega)]
  rw [e1, e2, e3, e4, e5, hdrop]

/-- C8 counterexample: on a zero-row table, `head()` and `tail()` do not
return the (empty) list of available rows: no branch assigns `head_list`
and the final `np.array(head_list)` raises `UnboundLocalError`. -/
theorem head_tail_empty_table_error :
    Data.head tblEmpty = none ∧ Data.tail tblEmpty = none
    ∧ Data.head tblEmpty ≠ some tblEmpty.data := by
  decide

/-- C8 (amended): on every table with at least one and fewer than 5
rows, `head()` and `tail()` both return exactly the available rows in
ascending order; with exactly 5 rows both return the same 5 rows in the
same order; with 5 or more rows `head()` returns the first 5 rows and
`tail()` the last 5 rows. The zero-row case instead fails (unassigned
`head_list`). -/
theorem head_tail_small_tables (d : Data) :
    (0 < d.data.length → d.data.length < 5 →
      Data.head d = some d.data ∧ Data.tail d = some d.data)
    ∧ (d.data.length = 5 → Data.head d = some d.data ∧ Data.tail d = some d.data)
    ∧ (5 ≤ d.data.length →
        Data.head d = some (d.data.take 5)
        ∧ Data.tail d = some (d.data.drop (d.data.length - 5))) := by
  obtain ⟨hdrs, l, dict⟩ := d
  rcases l with _ | ⟨a, _ | ⟨b, _ | ⟨c, _ | ⟨e2, _ | ⟨f, rest⟩⟩⟩⟩⟩
  · exact ⟨fun h1 _ => absurd h1 (by simp), fun h5 => by simp at h5,
      fun hge => by simp at hge⟩
  · refine ⟨fun _ _ => ⟨?_, ?_⟩, fun h5 => by simp at h5, fun hge => by simp at hge⟩
    · simp +decide [Data.head]
    · simp +decide [Data.tail, pyIndex]
  · refine ⟨fun _ _ => ⟨?_, ?_⟩, fun h5 => by simp at h5, fun hge => by simp at hge⟩
    · simp +decide [Data.head]
    · simp +decide [Data.tail, pyIndex]
  · refine ⟨fun _ _ => ⟨?_, ?_⟩, fun h5 => by simp at h5, fun hge => by simp at hge⟩
    · simp +decide [Data.head]
    · simp +decide [Data.tail, pyIndex]
  · refine ⟨fun _ _ => ⟨?_, ?_⟩, fun h5 => by simp at h5, fun hge => by simp at hge⟩
    · simp +decide [Data.head]
    · simp +decide [Data.tail, pyIndex]
  · refine ⟨fun h1 h2 => ?_, fun h5 => ?_, fun hge => ?_⟩
    · exfalso
      simp at h2
      omega
    · simp at h5
      subst h5
      constructor
      · simp +decide [Data.head]
      · simp +decide [Data.tail, pyIndex]
    · constructor
      · simp +decide [Data.head, List.take]
        rw [if_neg (by omega), if_neg (by omega), if_neg (by omega),
          if_neg (by omega)]
      · exact tail_ge_five _ hge

/-- Witness for C8 (amended) on three-, five- and six-row tables: head
and tail return all rows on the small tables, coincide on the five-row
table, and return the first and last 5 rows on the six-row table. -/
theorem head_tail_small_tables_witness :
    ((Data.head tbl3 = some tbl3.data ∧ Data.tail tbl3 = some tbl3.data)
    ∧ (Data.head tbl5 = some tbl5.data ∧ Data.tail tbl5 = some tbl5.data))
    ∧ (Data.head tbl6 = some (tbl6.data.take 5)
       ∧ Data.tail tbl6 = some (tbl6.data.drop (tbl6.data.length - 5))) :=
  ⟨⟨(head_tail_small_tables tbl3).1 (by decide) (by decide),
    (head_tail_small_tables tbl5).2.1 (by decide)⟩,
   (head_tail_small_tables tbl6).2.2 (by decide)⟩

/-- C9: for every table, header request and row selection on which `min`
and `max` succeed, `range` returns exactly the pair of their two
independently computed results. -/
theorem range_is_min_max_pair (d : Data) (h : HeadersArg) (rows : List ℤ)
    (mins maxes : List ℚ) (hmin : Analysis.min d h rows = some mins)
    (hmax : Analysis.max d h rows = some maxes) :
    Analysis.range d h rows = some (mins, maxes) := by
  unfold Analysis.range
  rw [hmin, hmax]

/-- Witness for C9: on the example table the range over all rows is the
pair of columnwise minima and maxima. -/
theorem range_is_min_max_pair_witness :
    Analysis.range tbl3 (.list ["a", "c"]) [] = some ([1, 10], [3, 30]) :=
  range_is_min_max_pair tbl3 (.list ["a", "c"]) [] [1, 10] [3, 30]
    (by decide) (by decide)

/-- C10: `select_data` accepts a single header given as a bare string
and treats it exactly as the one-element list, producing one column per
(known) request; `scatter` relies on this by passing its two variable
names as bare strings. -/
theorem select_single_string_ok (d : Data) (s : String) (rows : List ℤ) :
    d.select_data (.single s) rows = d.select_data (.list [s]) rows
    ∧ ((dictLookup d.header2col s).isSome →
        ∀ m, d.select_data (.single s) rows = some m → ∀ r ∈ m, r.length = 1)
    ∧ (∀ b, Analysis.scatter d s b
        = match d.select_data (.list [s]) [], d.select_data (.list [b]) [] with
          | some x, some y => some (x, y)
          | _, _ => none) := by
  refine ⟨rfl, ?_, fun b => rfl⟩
  intro hknown m hm r hr
  rw [select_data_row_length hm r hr]
  simp only [HeadersArg.toList_single]
  unfold Data.get_header_indices
  cases hlook : dictLookup d.header2col s with
  | none => rw [hlook] at hknown; cases hknown
  | some v => simp [List.filterMap_cons, hlook]

/-- Witness for C10: selecting the bare string `a` on the example table
returns a one-column matrix, and `scatter` returns the two selected
columns. -/
theorem select_single_string_ok_witness :
    (∀ r ∈ [[(1 : ℚ)], [2], [3]], r.length = 1)
    ∧ Analysis.scatter tbl3 "a" "c"
        = some ([[1], [2], [3]], [[10], [20], [30]]) :=
  ⟨(select_single_string_ok tbl3 "a" []).2.1 (by decide)
      [[1], [2], [3]] (by decide),
   by decide⟩
